import Mathlib

/-!
Verification of the general_conference_citations repository
(src/download.py and src/dashboard.py) against its specification.

The Python code is shallowly embedded: strings are Lean `String`s
(sequences of unicode code points, matching Python `str` semantics for
length, slicing and comparison), the on-disk cache is an explicit
association list from file path to content, the network is an oracle
`String → Option String` (`none` models a `requests` failure, including a
non-2xx status raised by `raise_for_status`), and `pandas` column
operations are modelled as list transformations.  The BeautifulSoup
parse/serialize round trip `str(BeautifulSoup(html, "html.parser"))` is
modelled as the identity on the document text.
-/

namespace GCC

/-! ### Python string primitives -/

/-- Model of Python `s.split(sep)` for a single-character separator:
splits on every occurrence of `sep`, preserving empty fragments, so the
result always has one more element than the number of separators. -/
def splitChar (sep : Char) : List Char → List (List Char)
  | [] => [[]]
  | c :: rest =>
    let r := splitChar sep rest
    if c = sep then [] :: r
    else
      match r with
      | [] => [[c]]
      | h :: t => (c :: h) :: t

/-- Model of Python `s.split(sep)` on `String`, single-character separator. -/
def pySplit (s : String) (sep : Char) : List String :=
  (splitChar sep s.data).map String.mk

/-- Worker for `countSub`, structurally recursive on a fuel argument so
that the kernel can evaluate it; one unit of fuel is spent per inspected
position, and every step shortens the haystack by at least one character,
so `haystack.length` fuel always suffices. -/
def countSubAux : Nat → List Char → List Char → Nat
  | 0, _, _ => 0
  | _ + 1, [], _ => 0
  | fuel + 1, c :: rest, sub =>
    if sub.isPrefixOf (c :: rest) && !sub.isEmpty then
      1 + countSubAux fuel (rest.drop (sub.length - 1)) sub
    else
      countSubAux fuel rest sub

/-- Model of Python `haystack.count(needle)` for a non-empty needle:
the number of non-overlapping occurrences, scanning left to right and
skipping past each match. -/
def countSub (l sub : List Char) : Nat :=
  countSubAux l.length l sub

/-- Model of Python `s.lower()`: code-point-wise lowercasing (the inputs
this repository lowercases are compared against ASCII search strings, for
which `Char.toLower` agrees with Python). -/
def pyLower (s : String) : String :=
  String.mk (s.data.map Char.toLower)

/-- The characters of the ASCII range that Python's `str.isspace`, the
regex class `\s` and `str.strip()` treat as whitespace. -/
def isPySpace (c : Char) : Bool :=
  c = ' ' || c = '\t' || c = '\n' || c = '\r' || c = '\x0b' || c = '\x0c' ||
    c = '\x1c' || c = '\x1d' || c = '\x1e' || c = '\x1f'

/-- Worker for `collapseWS`, structurally recursive on a fuel argument so
that the kernel can evaluate it; one unit of fuel is spent per produced
character, and every step shortens the input by at least one character,
so `l.length` fuel always suffices. -/
def collapseWSAux : Nat → List Char → List Char
  | 0, _ => []
  | _ + 1, [] => []
  | fuel + 1, c :: rest =>
    if isPySpace c then ' ' :: collapseWSAux fuel (rest.dropWhile isPySpace)
    else c :: collapseWSAux fuel rest

/-- Model of Python `re.sub(r"\s+", " ", s)` on ASCII text: every maximal
run of whitespace characters is replaced by a single space. -/
def collapseWS (l : List Char) : List Char :=
  collapseWSAux l.length l

/-- Model of Python `s.strip()` on ASCII text: remove whitespace from both
ends. -/
def pyStrip (l : List Char) : List Char :=
  ((l.dropWhile isPySpace).reverse.dropWhile isPySpace).reverse

/-- String wrapper for `pyStrip`. -/
def pyStripStr (s : String) : String :=
  String.mk (pyStrip s.data)

/-- Model of Python `os.path.join(folder, name)` for the relative names
this repository produces. -/
def joinPath (folder name : String) : String :=
  if folder = "" then name
  else if folder.data.getLast? = some '/' then folder ++ name
  else folder ++ "/" ++ name

/-! ### Lexicographic string comparison

Python compares strings lexicographically by code point, a prefix being
smaller than any extension.  `pandas.sort_values` on a string column uses
this order.  The comparison is defined structurally so that it can be
evaluated by the kernel. -/

/-- Lexicographic less-or-equal on character lists, by code point. -/
def lexLeB : List Char → List Char → Bool
  | [], _ => true
  | _ :: _, [] => false
  | a :: as, b :: bs => if a = b then lexLeB as bs else decide (a < b)

/-- Lexicographic less-or-equal on strings, matching Python string
comparison. -/
def strLe (a b : String) : Prop := lexLeB a.data b.data = true

theorem lexLeB_refl : ∀ l : List Char, lexLeB l l = true
  | [] => rfl
  | a :: as => by simp [lexLeB, lexLeB_refl as]

theorem lexLeB_total : ∀ a b : List Char, lexLeB a b = true ∨ lexLeB b a = true
  | [], _ => Or.inl rfl
  | _ :: _, [] => Or.inr rfl
  | a :: as, b :: bs => by
    by_cases hab : a = b
    · subst hab
      simpa [lexLeB] using lexLeB_total as bs
    · rcases lt_or_gt_of_ne hab with h | h
      · exact Or.inl (by simp [lexLeB, hab, h])
      · exact Or.inr (by simp [lexLeB, Ne.symm hab, h])

theorem lexLeB_trans :
    ∀ a b c : List Char, lexLeB a b = true → lexLeB b c = true → lexLeB a c = true
  | [], _, _, _, _ => rfl
  | _ :: _, [], _, hab, _ => by simp [lexLeB] at hab
  | _ :: _, _ :: _, [], _, hbc => by simp [lexLeB] at hbc
  | a :: as, b :: bs, c :: cs, hab, hbc => by
    by_cases h1 : a = b <;> by_cases h2 : b = c
    · subst h1; subst h2
      simp only [lexLeB, if_pos rfl] at hab hbc ⊢
      exact lexLeB_trans as bs cs hab hbc
    · subst h1
      simp [lexLeB, h2] at hbc ⊢
      exact hbc
    · subst h2
      simp [lexLeB, h1] at hab ⊢
      exact hab
    · simp only [lexLeB, if_neg h1] at hab
      simp only [lexLeB, if_neg h2] at hbc
      have hac : a < c := lt_trans (of_decide_eq_true hab) (of_decide_eq_true hbc)
      by_cases h3 : a = c
      · exact absurd (h3 ▸ hac) (lt_irrefl c)
      · simp [lexLeB, h3, hac]

/-! ### Filesystem and network model -/

/-- The on-disk cache: an association list from file path to file
content.  `os.path.exists` is membership, reading is lookup, and writing
prepends. -/
structure FS where
  files : List (String × String)
deriving DecidableEq

/-- Model of `os.path.exists`. -/
def FS.pathExists (fs : FS) (p : String) : Bool :=
  (fs.files.lookup p).isSome

/-- Model of `open(p).read()` for a file known to the cache. -/
def FS.read? (fs : FS) (p : String) : Option String :=
  fs.files.lookup p

/-- Result of one fetch call: the returned `(filepath, downloaded)` pair,
the filesystem after the call, and the number of HTTP requests issued. -/
structure FetchOut where
  path : Option String
  downloaded : Bool
  fs : FS
  requests : Nat
deriving DecidableEq

/-! ### download.py, fetch functions -/

/-- Cache filename derived by `save_conference_list_html`:
`url.split('/')[-2] + '-' + url.split('/')[-1].split('?')[0] + '.html'`. -/
def conf_list_filename (url : String) : String :=
  let parts := pySplit url '/'
  (parts.getD (parts.length - 2) "") ++ "-" ++
    ((pySplit (parts.getD (parts.length - 1) "") '?').headD "") ++ ".html"

/-- Base filename derived by `save_talk_html` from the last three URL path
segments: `parts[-3] + '-' + parts[-2] + '-' + parts[-1].split('?')[0]`. -/
def talk_base_filename (url : String) : String :=
  let parts := pySplit url '/'
  (parts.getD (parts.length - 3) "") ++ "-" ++ (parts.getD (parts.length - 2) "") ++ "-" ++
    ((pySplit (parts.getD (parts.length - 1) "") '?').headD "")

/-- Cache path of the plain variant of a talk page. -/
def talk_filepath_plain (url folder_path : String) : String :=
  joinPath folder_path (talk_base_filename url ++ ".html")

/-- Cache path of the language-tagged variant of a talk page. -/
def talk_filepath_lang (url folder_path : String) : String :=
  joinPath folder_path (talk_base_filename url ++ "_lang=eng.html")

/-- Model of `save_conference_list_html(url, folder_path)`.  The `net`
oracle stands for `requests.get`; `none` models a request exception
(including a non-2xx status raised by `raise_for_status`) or a filesystem
error while saving, both of which the Python code catches and turns into
the empty result `(None, False)`.  A URL with fewer than two slash-parts
makes `parts[-2]` raise `IndexError`, which the bare `except` also turns
into the empty result. -/
def save_conference_list_html (net : String → Option String) (fs : FS)
    (url folder_path : String) : FetchOut :=
  let parts := pySplit url '/'
  if parts.length < 2 then
    { path := none, downloaded := false, fs := fs, requests := 0 }
  else
    let filepath := joinPath folder_path (conf_list_filename url)
    if fs.pathExists filepath then
      { path := some filepath, downloaded := false, fs := fs, requests := 0 }
    else
      match net url with
      | some body =>
        { path := some filepath, downloaded := true,
          fs := ⟨(filepath, body) :: fs.files⟩, requests := 1 }
      | none =>
        { path := none, downloaded := false, fs := fs, requests := 1 }

/-- Model of `save_talk_html(url, folder_path)`.  If either the plain or
the language-tagged cache file exists the function skips the fetch and
returns the existing path (preferring the language-tagged one); otherwise
it fetches and saves under the language-tagged name exactly when the URL
contains the substring `lang=eng`. -/
def save_talk_html (net : String → Option String) (fs : FS)
    (url folder_path : String) : FetchOut :=
  let parts := pySplit url '/'
  if parts.length < 3 then
    { path := none, downloaded := false, fs := fs, requests := 0 }
  else
    let filepath_plain := talk_filepath_plain url folder_path
    let filepath_lang := talk_filepath_lang url folder_path
    if fs.pathExists filepath_plain || fs.pathExists filepath_lang then
      { path := some (if fs.pathExists filepath_lang then filepath_lang else filepath_plain),
        downloaded := false, fs := fs, requests := 0 }
    else
      match net url with
      | some body =>
        let filepath :=
          if 0 < countSub url.data "lang=eng".data then filepath_lang else filepath_plain
        { path := some filepath, downloaded := true,
          fs := ⟨(filepath, body) :: fs.files⟩, requests := 1 }
      | none =>
        { path := none, downloaded := false, fs := fs, requests := 1 }

/-! ### download.py, citation counting -/

/-- The all-zero citation mapping returned for a missing file. -/
def zeroCounts : List (String × Nat) :=
  [("bom", 0), ("dc", 0), ("pgp", 0), ("nt", 0), ("ot", 0)]

/-- The five book-specific URL-path search strings of
`count_scripture_references_from_file`. -/
def search_strings_map : List (String × String) :=
  [("bom", "scriptures/bofm/"),
   ("dc", "scriptures/dc-testament/dc/"),
   ("pgp", "scriptures/pgp/"),
   ("nt", "scriptures/nt/"),
   ("ot", "scriptures/ot/")]

/-- Model of `count_scripture_references_from_file(filepath)`.  A `none`
or empty path, or a path that does not exist, yields the all-zero
mapping; otherwise the document text (the BeautifulSoup round trip is
modelled as the identity) is lower-cased and each search string is
counted with `str.count`. -/
def count_scripture_references_from_file (fs : FS) (filepath : Option String) :
    List (String × Nat) :=
  match filepath with
  | none => zeroCounts
  | some p =>
    if p = "" then zeroCounts
    else
      match fs.read? p with
      | none => zeroCounts
      | some html =>
        let text := (pyLower html).data
        search_strings_map.map fun kv => (kv.1, countSub text (pyLower kv.2).data)

/-! ### download.py, deduplication -/

/-- Model of `get_base_talk_filename(filename)`: strip a trailing
`_lang=eng.html` back to `.html`. -/
def get_base_talk_filename (filename : String) : String :=
  if "_lang=eng.html".data.isSuffixOf filename.data then
    String.mk (filename.data.take (filename.data.length - "_lang=eng.html".data.length)) ++
      ".html"
  else filename

/-- Model of `DataFrame.drop_duplicates(subset=[key], keep='first')`:
keep a row exactly when its key has not been seen on an earlier row. -/
def dropDupKeysAux (key : String → String) : List String → List String → List String
  | _, [] => []
  | seen, f :: rest =>
    if key f ∈ seen then dropDupKeysAux key seen rest
    else f :: dropDupKeysAux key (key f :: seen) rest

/-- Descending-filename order used by
`sort_values(by=['filename'], ascending=[False])`. -/
def fnameGE (a b : String) : Prop := lexLeB b.data a.data = true

instance : DecidableRel fnameGE := fun a b =>
  inferInstanceAs (Decidable (lexLeB b.data a.data = true))

instance : IsTotal String fnameGE :=
  ⟨fun a b => lexLeB_total b.data a.data⟩

instance : IsTrans String fnameGE :=
  ⟨fun _ _ _ h1 h2 => lexLeB_trans _ _ _ h2 h1⟩

/-- Model of the deduplication step of `main` (lines 257-261 of
download.py): sort the rows by filename in descending lexical order, then
drop later rows that repeat an earlier base filename. -/
def dedupTalks (filenames : List String) : List String :=
  dropDupKeysAux get_base_talk_filename [] (List.insertionSort fnameGE filenames)

/-! ### dashboard.py -/

/-- Static verse-count lookup table `VERSE_COUNTS`, never mutated. -/
def VERSE_COUNTS : List (String × Nat) :=
  [("ot", 23145), ("nt", 7957), ("bom", 6604), ("dc", 3654), ("pgp", 635)]

/-- Per-100-verse column computed in `load_data`:
`df[col] / verses * 100`.  Python float arithmetic is modelled by exact
rationals; for the concrete values settled here the double-rounding error
(at most about 1e-15 relative) is far below the differences at stake. -/
def per100 (count : ℚ) (verses : Nat) : ℚ :=
  count / (verses : ℚ) * 100

/-- The verse-adjusted metric of one book column: `none` when the book
code is not in the static table. -/
def verse_adjusted (book : String) (count : ℚ) : Option ℚ :=
  (VERSE_COUNTS.lookup book).map fun v => per100 count v

/-- The character class deleted by the first substitution of
`clean_text`.  In the source the regex is the concatenation of two
adjacent string literals and denotes the set
`{U+00C2, U+00E2, U+20AC, U+2122, U+0022, U+2013, U+2014, U+00A9}`
(the only ASCII member is the straight double quote). -/
def specialChars : List Char :=
  [Char.ofNat 0xC2, Char.ofNat 0xE2, Char.ofNat 0x20AC, Char.ofNat 0x2122,
   Char.ofNat 0x22, Char.ofNat 0x2013, Char.ofNat 0x2014, Char.ofNat 0xA9]

/-- Model of `clean_text(text)` for a non-null string: delete the special
characters, delete every non-ASCII code point, collapse whitespace runs
to single spaces, and strip. -/
def clean_text (s : String) : String :=
  let t1 := s.data.filter fun c => !(specialChars.contains c)
  let t2 := t1.filter fun c => decide (c.toNat ≤ 0x7F)
  String.mk (pyStrip (collapseWS t2))

/-- The normalization applied to both arguments of
`remove_speaker_from_title`:
`re.sub(r'[^a-zA-Z0-9]', '', x).lower()`. -/
def normAlnumLower (s : String) : String :=
  String.mk ((s.data.filter fun c => c.isAlphanum).map Char.toLower)

/-- Model of Python `s[:-n]`: for `n = 0` the slice `[:0]` is empty,
otherwise the last `n` characters are dropped. -/
def pySliceDropRight (s : String) (n : Nat) : String :=
  if n = 0 then "" else String.mk (s.data.take (s.data.length - n))

/-- Model of `remove_speaker_from_title(title, speaker)` for non-null
arguments: when the alphanumeric-lower-cased title ends with the
alphanumeric-lower-cased speaker, return `title[:-(len(speaker))].strip()`,
else return the title unchanged. -/
def remove_speaker_from_title (title speaker : String) : String :=
  let t := normAlnumLower title
  let s := normAlnumLower speaker
  if s.data <:+ t.data then pyStripStr (pySliceDropRight title speaker.length)
  else title

/-- Claim-side notion for the title-cleanup sentence: the result arises
from the title by deleting a trailing segment that normalizes to the
speaker name and stripping the remainder.  Stated over all cut points of
the title so that its failure is decidable. -/
def removesTrailingOcc (title speaker result : String) : Bool :=
  (List.range (title.data.length + 1)).any fun k =>
    normAlnumLower (String.mk (title.data.drop k)) == normAlnumLower speaker &&
      result == pyStripStr (String.mk (title.data.take k))

/-- Model of `Series.rolling(window, min_periods=1).mean()` over the
chronologically ordered per-conference series: entry `i` is the mean of
the last `min window (i+1)` values up to and including entry `i`. -/
def rollingMean (window : Nat) (xs : List ℚ) : List ℚ :=
  (List.range xs.length).map fun i =>
    let seg := (xs.take (i + 1)).drop (i + 1 - window)
    seg.sum / (seg.length : ℚ)

/-! ### Whitespace-normalization lemmas -/

theorem head_dropWhile_not_pySpace :
    ∀ (l : List Char) (c : Char), (l.dropWhile isPySpace).head? = some c →
      isPySpace c = false := by
  intro l
  induction l with
  | nil => intro c hc; simp at hc
  | cons a t ih =>
    intro c hc
    by_cases ha : isPySpace a
    · rw [List.dropWhile_cons, if_pos ha] at hc
      exact ih c hc
    · rw [List.dropWhile_cons, if_neg ha] at hc
      cases hc
      exact Bool.eq_false_iff.mpr ha

theorem dropWhile_eq_self_of_head :
    ∀ l : List Char, (∀ c, l.head? = some c → isPySpace c = false) →
      l.dropWhile isPySpace = l := by
  intro l h
  cases l with
  | nil => rfl
  | cons a t =>
    have := h a rfl
    rw [List.dropWhile_cons, if_neg (by simp [this])]

theorem collapseWSAux_canon :
    ∀ (fuel : Nat) (l : List Char), l.length ≤ fuel →
      (∀ c ∈ collapseWSAux fuel l, isPySpace c = true → c = ' ') ∧
      (collapseWSAux fuel l).Chain'
        (fun a b => ¬(isPySpace a = true ∧ isPySpace b = true)) := by
  intro fuel
  induction fuel with
  | zero =>
    intro l hl
    simp [collapseWSAux]
  | succ fuel ih =>
    intro l hl
    cases l with
    | nil => simp [collapseWSAux]
    | cons c rest =>
      simp only [collapseWSAux]
      by_cases hc : isPySpace c
      · rw [if_pos hc]
        have hlen : (rest.dropWhile isPySpace).length ≤ fuel := by
          have := (List.dropWhile_suffix isPySpace (l := rest)).sublist.length_le
          simp only [List.length_cons] at hl
          omega
        obtain ⟨hmem, hchain⟩ := ih (rest.dropWhile isPySpace) hlen
        refine ⟨?_, ?_⟩
        · intro x hx hws
          rcases List.mem_cons.mp hx with rfl | hx2
          · rfl
          · exact hmem x hx2 hws
        · rw [List.chain'_cons']
          refine ⟨?_, hchain⟩
          intro y hy
          have hout : (collapseWSAux fuel (rest.dropWhile isPySpace)).head? = some y := hy
          have hyws : isPySpace y = false := by
            cases hfuel : fuel with
            | zero => rw [hfuel] at hout; simp [collapseWSAux] at hout
            | succ fuel2 =>
              rw [hfuel] at hout
              cases hrest : rest.dropWhile isPySpace with
              | nil => rw [hrest] at hout; simp [collapseWSAux] at hout
              | cons d t =>
                have hd : isPySpace d = false := by
                  apply head_dropWhile_not_pySpace rest
                  rw [hrest]; rfl
                rw [hrest] at hout
                simp only [collapseWSAux, hd, Bool.false_eq_true, if_neg, ite_false] at hout
                cases hout
                exact hd
          simp [hyws]
      · rw [if_neg hc]
        have hlen : rest.length ≤ fuel := by
          simp only [List.length_cons] at hl
          omega
        obtain ⟨hmem, hchain⟩ := ih rest hlen
        refine ⟨?_, ?_⟩
        · intro x hx hws
          rcases List.mem_cons.mp hx with rfl | hx2
          · exact absurd hws (by simp [hc])
          · exact hmem x hx2 hws
        · rw [List.chain'_cons']
          refine ⟨fun y _ => ?_, hchain⟩
          intro ⟨h1, _⟩
          exact hc (by simp [h1])

theorem collapseWSAux_fixed :
    ∀ (fuel : Nat) (l : List Char), l.length ≤ fuel →
      (∀ c ∈ l, isPySpace c = true → c = ' ') →
      l.Chain' (fun a b => ¬(isPySpace a = true ∧ isPySpace b = true)) →
      collapseWSAux fuel l = l := by
  intro fuel
  induction fuel with
  | zero =>
    intro l hl _ _
    interval_cases hlen : l.length
    · exact (List.length_eq_zero.mp hlen) ▸ rfl
  | succ fuel ih =>
    intro l hl hmem hchain
    cases l with
    | nil => rfl
    | cons c rest =>
      simp only [List.length_cons] at hl
      rw [List.chain'_cons'] at hchain
      obtain ⟨hhead, htail⟩ := hchain
      simp only [collapseWSAux]
      by_cases hc : isPySpace c
      · rw [if_pos hc]
        have hrest : rest.dropWhile isPySpace = rest := by
          apply dropWhile_eq_self_of_head
          intro d hd
          have := hhead d (by rw [hd]; rfl)
          by_contra hws
          exact this ⟨by simp [hc], by simpa using hws⟩
        rw [hrest, ih rest (by omega) (fun x hx => hmem x (List.mem_cons_of_mem _ hx)) htail,
          hmem c (List.mem_cons_self _ _) (by simp [hc])]
      · rw [if_neg hc,
          ih rest (by omega) (fun x hx => hmem x (List.mem_cons_of_mem _ hx)) htail]

theorem mem_collapseWSAux :
    ∀ (fuel : Nat) (l : List Char) (c : Char), c ∈ collapseWSAux fuel l →
      c = ' ' ∨ c ∈ l := by
  intro fuel
  induction fuel with
  | zero => intro l c hc; simp [collapseWSAux] at hc
  | succ fuel ih =>
    intro l c hc
    cases l with
    | nil => simp [collapseWSAux] at hc
    | cons a rest =>
      simp only [collapseWSAux] at hc
      by_cases ha : isPySpace a
      · rw [if_pos ha] at hc
        rcases List.mem_cons.mp hc with rfl | hc2
        · exact Or.inl rfl
        · rcases ih _ c hc2 with h | h
          · exact Or.inl h
          · exact Or.inr (List.mem_cons_of_mem _
              ((List.dropWhile_suffix isPySpace).sublist.subset h))
      · rw [if_neg ha] at hc
        rcases List.mem_cons.mp hc with rfl | hc2
        · exact Or.inr (List.mem_cons_self _ _)
        · rcases ih _ c hc2 with h | h
          · exact Or.inl h
          · exact Or.inr (List.mem_cons_of_mem _ h)

theorem pyStrip_isPrefixOf_dropWhile (l : List Char) :
    pyStrip l <+: l.dropWhile isPySpace := by
  have h2 : ((l.dropWhile isPySpace).reverse.dropWhile isPySpace) <:+
      (l.dropWhile isPySpace).reverse :=
    @List.dropWhile_suffix Char ((l.dropWhile isPySpace).reverse) isPySpace
  have h2b : ((l.dropWhile isPySpace).reverse.dropWhile isPySpace).reverse.reverse <:+
      (l.dropWhile isPySpace).reverse := by
    rw [List.reverse_reverse]
    exact h2
  exact (@List.reverse_suffix Char
    ((l.dropWhile isPySpace).reverse.dropWhile isPySpace).reverse
    (l.dropWhile isPySpace)).mp h2b

theorem pyStrip_isInfix (l : List Char) : pyStrip l <:+: l := by
  have h1 : (l.dropWhile isPySpace) <:+ l := List.dropWhile_suffix isPySpace
  exact (pyStrip_isPrefixOf_dropWhile l).isInfix.trans h1.isInfix

theorem pyStrip_head_not_pySpace (l : List Char) :
    ∀ c, (pyStrip l).head? = some c → isPySpace c = false := by
  intro c hc
  obtain ⟨t, ht⟩ := pyStrip_isPrefixOf_dropWhile l
  have hh : (l.dropWhile isPySpace).head? = some c := by
    rw [← ht]
    cases hps : pyStrip l with
    | nil => rw [hps] at hc; cases hc
    | cons a u =>
      rw [hps] at hc
      cases hc
      rfl
  exact head_dropWhile_not_pySpace l c hh

theorem pyStrip_getLast_not_pySpace (l : List Char) :
    ∀ c, (pyStrip l).getLast? = some c → isPySpace c = false := by
  intro c hc
  rw [pyStrip, List.getLast?_reverse] at hc
  exact head_dropWhile_not_pySpace _ c hc

theorem pyStrip_fixed (l : List Char)
    (hhead : ∀ c, l.head? = some c → isPySpace c = false)
    (hlast : ∀ c, l.getLast? = some c → isPySpace c = false) :
    pyStrip l = l := by
  rw [pyStrip, dropWhile_eq_self_of_head l hhead, dropWhile_eq_self_of_head, List.reverse_reverse]
  intro c hc
  rw [List.head?_reverse] at hc
  exact hlast c hc

theorem clean_output_props (t2 : List Char) :
    (∀ c ∈ pyStrip (collapseWS t2), isPySpace c = true → c = ' ') ∧
    (pyStrip (collapseWS t2)).Chain'
      (fun a b => ¬(isPySpace a = true ∧ isPySpace b = true)) ∧
    (∀ c ∈ pyStrip (collapseWS t2), c = ' ' ∨ c ∈ t2) ∧
    (∀ c, (pyStrip (collapseWS t2)).head? = some c → isPySpace c = false) ∧
    (∀ c, (pyStrip (collapseWS t2)).getLast? = some c → isPySpace c = false) := by
  obtain ⟨hmem, hchain⟩ := collapseWSAux_canon t2.length t2 le_rfl
  have hinf := pyStrip_isInfix (collapseWS t2)
  refine ⟨?_, hchain.infix hinf, ?_, pyStrip_head_not_pySpace _, pyStrip_getLast_not_pySpace _⟩
  · intro c hc hws
    exact hmem c (hinf.sublist.subset hc) hws
  · intro c hc
    exact mem_collapseWSAux t2.length t2 c (hinf.sublist.subset hc)

theorem strip_collapse_fixed (l : List Char)
    (hws : ∀ c ∈ l, isPySpace c = true → c = ' ')
    (hchain : l.Chain' (fun a b => ¬(isPySpace a = true ∧ isPySpace b = true)))
    (hhead : ∀ c, l.head? = some c → isPySpace c = false)
    (hlast : ∀ c, l.getLast? = some c → isPySpace c = false) :
    pyStrip (collapseWS l) = l := by
  rw [collapseWS, collapseWSAux_fixed l.length l le_rfl hws hchain]
  exact pyStrip_fixed l hhead hlast

/-! ### Deduplication lemmas -/

theorem mem_of_mem_dropDupKeysAux (key : String → String) :
    ∀ (l seen : List String) (g : String),
      g ∈ dropDupKeysAux key seen l → g ∈ l ∧ key g ∉ seen := by
  intro l
  induction l with
  | nil => intro seen g hg; simp [dropDupKeysAux] at hg
  | cons f rest ih =>
    intro seen g hg
    simp only [dropDupKeysAux] at hg
    by_cases hf : key f ∈ seen
    · rw [if_pos hf] at hg
      obtain ⟨h1, h2⟩ := ih seen g hg
      exact ⟨List.mem_cons_of_mem _ h1, h2⟩
    · rw [if_neg hf] at hg
      rcases List.mem_cons.mp hg with rfl | hg2
      · exact ⟨List.mem_cons_self _ _, hf⟩
      · obtain ⟨h1, h2⟩ := ih _ g hg2
        exact ⟨List.mem_cons_of_mem _ h1, fun hs => h2 (List.mem_cons_of_mem _ hs)⟩

theorem nodup_keys_dropDupKeysAux (key : String → String) :
    ∀ (l seen : List String), ((dropDupKeysAux key seen l).map key).Nodup := by
  intro l
  induction l with
  | nil => intro seen; simp [dropDupKeysAux]
  | cons f rest ih =>
    intro seen
    simp only [dropDupKeysAux]
    by_cases hf : key f ∈ seen
    · rw [if_pos hf]; exact ih seen
    · rw [if_neg hf]
      simp only [List.map_cons, List.nodup_cons]
      refine ⟨?_, ih _⟩
      intro hmem
      obtain ⟨g, hg, hkg⟩ := List.mem_map.mp hmem
      exact (mem_of_mem_dropDupKeysAux key rest _ g hg).2 (hkg ▸ List.mem_cons_self _ _)

theorem cover_dropDupKeysAux (key : String → String) :
    ∀ (l seen : List String) (f : String), f ∈ l →
      key f ∈ seen ∨ ∃ g ∈ dropDupKeysAux key seen l, key g = key f := by
  intro l
  induction l with
  | nil => intro seen f hf; simp at hf
  | cons f0 rest ih =>
    intro seen f hf
    simp only [dropDupKeysAux]
    rcases List.mem_cons.mp hf with rfl | hf2
    · by_cases h0 : key f ∈ seen
      · exact Or.inl h0
      · right
        rw [if_neg h0]
        exact ⟨f, List.mem_cons_self _ _, rfl⟩
    · by_cases h0 : key f0 ∈ seen
      · rw [if_pos h0]
        exact ih seen f hf2
      · rw [if_neg h0]
        rcases ih (key f0 :: seen) f hf2 with hin | ⟨g, hg, hkg⟩
        · rcases List.mem_cons.mp hin with heq | hs
          · exact Or.inr ⟨f0, List.mem_cons_self _ _, heq.symm⟩
          · exact Or.inl hs
        · exact Or.inr ⟨g, List.mem_cons_of_mem _ hg, hkg⟩

theorem max_dropDupKeysAux (key : String → String) :
    ∀ (l seen : List String), l.Sorted fnameGE →
      ∀ g ∈ dropDupKeysAux key seen l, ∀ f ∈ l, key f = key g →
        lexLeB f.data g.data = true := by
  intro l
  induction l with
  | nil => intro seen _ g hg; simp [dropDupKeysAux] at hg
  | cons f0 rest ih =>
    intro seen hs g hg f hf hkey
    have hs2 : rest.Sorted fnameGE := hs.of_cons
    have hhead : ∀ y ∈ rest, fnameGE f0 y := List.rel_of_sorted_cons hs
    simp only [dropDupKeysAux] at hg
    by_cases h0 : key f0 ∈ seen
    · rw [if_pos h0] at hg
      rcases List.mem_cons.mp hf with rfl | hf2
      · exact absurd (hkey ▸ h0) (mem_of_mem_dropDupKeysAux key rest seen g hg).2
      · exact ih seen hs2 g hg f hf2 hkey
    · rw [if_neg h0] at hg
      rcases List.mem_cons.mp hg with rfl | hg2
      · rcases List.mem_cons.mp hf with rfl | hf2
        · exact lexLeB_refl _
        · exact hhead f hf2
      · have hgk := (mem_of_mem_dropDupKeysAux key rest _ g hg2).2
        rcases List.mem_cons.mp hf with rfl | hf2
        · exact absurd (hkey ▸ List.mem_cons_self (key f) seen) hgk
        · exact ih _ hs2 g hg2 f hf2 hkey

/-! ### Claim theorems -/

/-- C1: for any table of talk records, after deduplication there is
exactly one row per normalized base filename (the kept base filenames are
distinct and every input base filename is still represented), and the row
kept for each base filename is the one whose full filename is lexically
greatest — so when two records differ only by the language-tag suffix the
language-tagged one is kept, as in the concrete two-record instance. -/
theorem dedup_unique_base_prefers_lang :
    (∀ files : List String,
      ((dedupTalks files).map get_base_talk_filename).Nodup ∧
      (∀ f ∈ files, ∃ g ∈ dedupTalks files,
        get_base_talk_filename g = get_base_talk_filename f) ∧
      (∀ g ∈ dedupTalks files, ∀ f ∈ files,
        get_base_talk_filename f = get_base_talk_filename g →
        lexLeB f.data g.data = true)) ∧
    dedupTalks ["talk-A.html", "talk-A_lang=eng.html"] = ["talk-A_lang=eng.html"] := by
  constructor
  · intro files
    refine ⟨nodup_keys_dropDupKeysAux _ _ _, ?_, ?_⟩
    · intro f hf
      have hf2 : f ∈ List.insertionSort fnameGE files :=
        (List.mem_insertionSort fnameGE).mpr hf
      rcases cover_dropDupKeysAux get_base_talk_filename
          (List.insertionSort fnameGE files) [] f hf2 with h | ⟨g, hg, hkg⟩
      · simp at h
      · exact ⟨g, hg, hkg⟩
    · intro g hg f hf hkey
      have hf2 : f ∈ List.insertionSort fnameGE files :=
        (List.mem_insertionSort fnameGE).mpr hf
      exact max_dropDupKeysAux get_base_talk_filename
        (List.insertionSort fnameGE files) []
        (List.sorted_insertionSort fnameGE files) g hg f hf2 hkey
  · decide

/-- C1 witness: the coverage and maximality clauses applied to the
two-record instance of the spec. -/
theorem dedup_unique_base_prefers_lang_witness :
    (∃ g ∈ dedupTalks ["talk-A.html", "talk-A_lang=eng.html"],
      get_base_talk_filename g = get_base_talk_filename "talk-A.html") ∧
    lexLeB "talk-A.html".data "talk-A_lang=eng.html".data = true :=
  ⟨(dedup_unique_base_prefers_lang.1 ["talk-A.html", "talk-A_lang=eng.html"]).2.1
      "talk-A.html" (by decide),
   (dedup_unique_base_prefers_lang.1 ["talk-A.html", "talk-A_lang=eng.html"]).2.2
      "talk-A_lang=eng.html" (by decide) "talk-A.html" (by decide) (by decide)⟩

/-- C2: for every existing talk-page HTML file,
`count_scripture_references_from_file` returns, for each of the five book
codes, the number of non-overlapping occurrences of that book's fixed
URL-path substring in the lower-cased document text; in particular a file
containing exactly 3 occurrences of `scriptures/bofm/` and 0 of the other
four markers yields `{bom:3, dc:0, pgp:0, nt:0, ot:0}`. -/
theorem count_refs_counts_marker_occurrences :
    (∀ (fs : FS) (p html : String), p ≠ "" → fs.read? p = some html →
      count_scripture_references_from_file fs (some p) =
        [("bom", countSub (pyLower html).data "scriptures/bofm/".data),
         ("dc", countSub (pyLower html).data "scriptures/dc-testament/dc/".data),
         ("pgp", countSub (pyLower html).data "scriptures/pgp/".data),
         ("nt", countSub (pyLower html).data "scriptures/nt/".data),
         ("ot", countSub (pyLower html).data "scriptures/ot/".data)]) ∧
    count_scripture_references_from_file
        ⟨[("conference_talks/2023-10-fixture.html",
           "scriptures/bofm/intro SCRIPTURES/BOFM/alma and scriptures/bofm/")]⟩
        (some "conference_talks/2023-10-fixture.html") =
      [("bom", 3), ("dc", 0), ("pgp", 0), ("nt", 0), ("ot", 0)] := by
  constructor
  · intro fs p html hp hr
    have h1 : pyLower "scriptures/bofm/" = "scriptures/bofm/" := by decide
    have h2 : pyLower "scriptures/dc-testament/dc/" = "scriptures/dc-testament/dc/" := by decide
    have h3 : pyLower "scriptures/pgp/" = "scriptures/pgp/" := by decide
    have h4 : pyLower "scriptures/nt/" = "scriptures/nt/" := by decide
    have h5 : pyLower "scriptures/ot/" = "scriptures/ot/" := by decide
    simp [count_scripture_references_from_file, hp, hr, search_strings_map,
      h1, h2, h3, h4, h5]
  · decide

/-- C2 witness: the general clause applied to the one-file fixture
filesystem. -/
theorem count_refs_counts_marker_occurrences_witness :
    count_scripture_references_from_file
        ⟨[("conference_talks/2023-10-fixture.html",
           "scriptures/bofm/intro SCRIPTURES/BOFM/alma and scriptures/bofm/")]⟩
        (some "conference_talks/2023-10-fixture.html") =
      [("bom", countSub
          (pyLower "scriptures/bofm/intro SCRIPTURES/BOFM/alma and scriptures/bofm/").data
          "scriptures/bofm/".data),
       ("dc", countSub
          (pyLower "scriptures/bofm/intro SCRIPTURES/BOFM/alma and scriptures/bofm/").data
          "scriptures/dc-testament/dc/".data),
       ("pgp", countSub
          (pyLower "scriptures/bofm/intro SCRIPTURES/BOFM/alma and scriptures/bofm/").data
          "scriptures/pgp/".data),
       ("nt", countSub
          (pyLower "scriptures/bofm/intro SCRIPTURES/BOFM/alma and scriptures/bofm/").data
          "scriptures/nt/".data),
       ("ot", countSub
          (pyLower "scriptures/bofm/intro SCRIPTURES/BOFM/alma and scriptures/bofm/").data
          "scriptures/ot/".data)] :=
  count_refs_counts_marker_occurrences.1
    ⟨[("conference_talks/2023-10-fixture.html",
       "scriptures/bofm/intro SCRIPTURES/BOFM/alma and scriptures/bofm/")]⟩
    "conference_talks/2023-10-fixture.html"
    "scriptures/bofm/intro SCRIPTURES/BOFM/alma and scriptures/bofm/"
    (by decide) (by decide)

/-- C3 counterexample: the spec example is numerically wrong.  For the
book code `ot` (23145 verses) a raw count of 231 yields
`231 / 23145 * 100 = 1540/1543 ≈ 0.99806`, which differs from `1.0` by
`3/1543 ≈ 1.94e-3` — three orders of magnitude beyond any floating-point
tolerance of the double-precision arithmetic the dashboard uses. -/
theorem verse_adjusted_ot_231_not_one :
    verse_adjusted "ot" 231 = some (1540 / 1543) ∧
      (1540 / 1543 : ℚ) ≠ 1 ∧ 1 / 1000 < |(1540 / 1543 : ℚ) - 1| := by
  refine ⟨?_, by norm_num, ?_⟩
  · have h : VERSE_COUNTS.lookup "ot" = some 23145 := rfl
    rw [verse_adjusted, h]
    norm_num [per100]
  · rw [abs_of_nonpos (by norm_num)]
    norm_num

/-- C3 amended: the verse-adjusted metric for a book equals
`count / total_verses_in_book * 100`; for the book code `ot` with 23145
total verses, a raw count of 231 yields a per-100 value of
`1540/1543 ≈ 0.9981` (close to, but not equal to, `1.0`). -/
theorem verse_adjusted_formula :
    (∀ (book : String) (v : Nat) (count : ℚ), VERSE_COUNTS.lookup book = some v →
      verse_adjusted book count = some (count / (v : ℚ) * 100)) ∧
    verse_adjusted "ot" 231 = some (1540 / 1543) := by
  constructor
  · intro book v count h
    rw [verse_adjusted, h]
    rfl
  · have h : VERSE_COUNTS.lookup "ot" = some 23145 := rfl
    rw [verse_adjusted, h]
    norm_num [per100]

/-- C3 witness: the formula clause applied to the `pgp` entry of the
static table. -/
theorem verse_adjusted_formula_witness :
    verse_adjusted "pgp" 127 = some ((127 : ℚ) / ((635 : Nat) : ℚ) * 100) :=
  verse_adjusted_formula.1 "pgp" 635 127 rfl

/-- C4 counterexample: the claim fails on the code.  With title
`"Faith in Christ Elder John Smith"` and speaker `"Elder  John  Smith"`
(doubled interior spaces), the normalized title does end with the
normalized speaker name, yet the function returns `"Faith in Chris"`: it
slices off `len(speaker) = 18` characters from the original title,
truncating the word `Christ`, so the result does not arise by removing a
trailing occurrence of the speaker name under any cut point of the
title. -/
theorem remove_speaker_not_occurrence_removal :
    (normAlnumLower "Elder  John  Smith").data <:+
      (normAlnumLower "Faith in Christ Elder John Smith").data ∧
    remove_speaker_from_title "Faith in Christ Elder John Smith" "Elder  John  Smith" =
      "Faith in Chris" ∧
    removesTrailingOcc "Faith in Christ Elder John Smith" "Elder  John  Smith"
      (remove_speaker_from_title "Faith in Christ Elder John Smith" "Elder  John  Smith") =
      false := by
  refine ⟨by decide, by decide, by decide⟩

/-- C4 amended: when the normalized title (case- and
punctuation-insensitively compared) ends with the normalized speaker
name, `remove_speaker_from_title` removes the final `len(speaker)`
characters of the title and strips the remainder.  This removes the
trailing occurrence of the speaker exactly when that occurrence spans
precisely the last `len(speaker)` characters — in particular whenever the
title ends with the speaker string verbatim — so the spec example still
yields `"Faith in Christ"`. -/
theorem remove_speaker_drops_len_speaker :
    (∀ title speaker : String,
      (normAlnumLower speaker).data <:+ (normAlnumLower title).data →
      remove_speaker_from_title title speaker =
        pyStripStr (pySliceDropRight title speaker.length)) ∧
    (∀ pre speaker : String, speaker ≠ "" →
      remove_speaker_from_title (pre ++ speaker) speaker = pyStripStr pre) ∧
    remove_speaker_from_title "Faith in Christ Elder John Smith" "Elder John Smith" =
      "Faith in Christ" := by
  refine ⟨fun title speaker h => ?_, fun pre speaker hne => ?_, by decide⟩
  · rw [remove_speaker_from_title, if_pos h]
  · have hdata : (pre ++ speaker).data = pre.data ++ speaker.data := String.data_append pre speaker
    have hsuf : (normAlnumLower speaker).data <:+ (normAlnumLower (pre ++ speaker)).data := by
      refine ⟨(normAlnumLower pre).data, ?_⟩
      simp [normAlnumLower, hdata, List.filter_append]
    rw [remove_speaker_from_title, if_pos hsuf]
    have hlen : speaker.length ≠ 0 := by
      intro h0
      apply hne
      have : speaker.data = [] := List.length_eq_zero.mp h0
      cases speaker
      simp_all
    rw [pySliceDropRight, if_neg hlen]
    have htake : (pre ++ speaker).data.take ((pre ++ speaker).data.length - speaker.length) =
        pre.data := by
      rw [hdata]
      have : (pre.data ++ speaker.data).length - speaker.length = pre.data.length := by
        simp only [List.length_append]
        have : speaker.length = speaker.data.length := rfl
        omega
      rw [this, List.take_left]
    rw [htake]

/-- C4 witness: the verbatim-trailing-speaker clause at a concrete title
split. -/
theorem remove_speaker_drops_len_speaker_witness :
    remove_speaker_from_title ("Faith in Christ " ++ "Elder John Smith") "Elder John Smith" =
      pyStripStr "Faith in Christ " :=
  remove_speaker_drops_len_speaker.2.1 "Faith in Christ " "Elder John Smith" (by decide)

/-- C5: the rolling average is a simple moving mean over the
chronologically sorted per-period series with a minimum window of one
observation: it preserves the series length (no nulls), the first point
is the partial average of itself alone, each window holds
`min window (i+1)` observations, and window 2 over the per-period sums
`[10, 20, 30]` yields `[10, 15, 25]`. -/
theorem rolling_average_moving_mean :
    (∀ (w : Nat) (xs : List ℚ), (rollingMean w xs).length = xs.length) ∧
    (∀ (w : Nat) (x : ℚ) (xs : List ℚ), 1 ≤ w →
      (rollingMean w (x :: xs)).head? = some x) ∧
    (∀ (w : Nat) (xs : List ℚ) (i : Nat), i < xs.length →
      ((xs.take (i + 1)).drop (i + 1 - w)).length = min w (i + 1)) ∧
    rollingMean 2 [10, 20, 30] = [10, 15, 25] := by
  refine ⟨fun w xs => by simp [rollingMean], fun w x xs hw => ?_, fun w xs i hi => ?_, ?_⟩
  · have h0 : 1 - w = 0 := Nat.sub_eq_zero_of_le hw
    simp [rollingMean, List.range_succ_eq_map, h0]
  · have h1 : (xs.take (i + 1)).length = i + 1 := by
      simp [List.length_take]
      omega
    rw [List.length_drop, h1]
    omega
  · norm_num [rollingMean, List.range_succ]

/-- C5 witness: the head clause applied to window 2 and the series
`[10, 20, 30]`. -/
theorem rolling_average_moving_mean_witness :
    (rollingMean 2 ((10 : ℚ) :: [20, 30])).head? = some 10 :=
  rolling_average_moving_mean.2.1 2 10 [20, 30] (by decide)

/-- C7: for every filepath argument that is `None`, empty, or does not
name an existing file, `count_scripture_references_from_file` returns
the all-zero mapping over the five book codes rather than raising. -/
theorem count_refs_missing_file_zero :
    (∀ fs : FS, count_scripture_references_from_file fs none = zeroCounts) ∧
    (∀ (fs : FS) (p : String), p = "" ∨ fs.read? p = none →
      count_scripture_references_from_file fs (some p) = zeroCounts) := by
  refine ⟨fun fs => rfl, fun fs p h => ?_⟩
  rcases h with h | h
  · simp [count_scripture_references_from_file, h]
  · by_cases hp : p = "" <;>
      simp [count_scripture_references_from_file, hp, h]

/-- C7 witness: a nonexistent path on an empty cache yields the all-zero
mapping. -/
theorem count_refs_missing_file_zero_witness :
    count_scripture_references_from_file ⟨[]⟩ (some "conference_talks/missing.html") =
      zeroCounts :=
  count_refs_missing_file_zero.2 ⟨[]⟩ "conference_talks/missing.html" (Or.inr rfl)

/-- C9: for every input filepath (existing or not), the mapping returned
by `count_scripture_references_from_file` has exactly the five keys
`bom, dc, pgp, nt, ot` in that order, and every value is a non-negative
integer. -/
theorem count_refs_keys_invariant :
    ∀ (fs : FS) (fp : Option String),
      (count_scripture_references_from_file fs fp).map Prod.fst =
        ["bom", "dc", "pgp", "nt", "ot"] ∧
      ∀ kv ∈ count_scripture_references_from_file fs fp, 0 ≤ kv.2 := by
  intro fs fp
  refine ⟨?_, fun kv _ => Nat.zero_le _⟩
  match fp with
  | none => rfl
  | some p =>
    by_cases hp : p = ""
    · simp [count_scripture_references_from_file, hp, zeroCounts]
    · cases hr : fs.read? p with
      | none => simp [count_scripture_references_from_file, hp, hr, zeroCounts]
      | some html =>
        simp [count_scripture_references_from_file, hp, hr, search_strings_map, zeroCounts]

/-- C6: fetching is idempotent with respect to the cache.  When the
derived cache file (for talk pages, either the plain or the
language-tagged variant) already exists, the fetch functions return the
existing path (the talk variant preferring the language-tagged file) with
`downloaded = False`, issue zero network requests, and leave the
filesystem unchanged. -/
theorem fetch_cache_hit_idempotent :
    (∀ (net : String → Option String) (fs : FS) (url folder_path : String),
      2 ≤ (pySplit url '/').length →
      fs.pathExists (joinPath folder_path (conf_list_filename url)) = true →
      save_conference_list_html net fs url folder_path =
        { path := some (joinPath folder_path (conf_list_filename url)),
          downloaded := false, fs := fs, requests := 0 }) ∧
    (∀ (net : String → Option String) (fs : FS) (url folder_path : String),
      3 ≤ (pySplit url '/').length →
      (fs.pathExists (talk_filepath_plain url folder_path) = true ∨
        fs.pathExists (talk_filepath_lang url folder_path) = true) →
      save_talk_html net fs url folder_path =
        { path := some (if fs.pathExists (talk_filepath_lang url folder_path)
                        then talk_filepath_lang url folder_path
                        else talk_filepath_plain url folder_path),
          downloaded := false, fs := fs, requests := 0 }) := by
  constructor
  · intro net fs url folder_path h2 hex
    have hn : ¬ (pySplit url '/').length < 2 := by omega
    simp [save_conference_list_html, hn, hex]
  · intro net fs url folder_path h3 hex
    have hn : ¬ (pySplit url '/').length < 3 := by omega
    have hor : (fs.pathExists (talk_filepath_plain url folder_path) ||
        fs.pathExists (talk_filepath_lang url folder_path)) = true := by
      rcases hex with h | h <;> simp [h]
    simp [save_talk_html, hn, hor]

/-- C6 witness: both clauses applied to concrete pre-populated caches; in
each case the network oracle is never consulted. -/
theorem fetch_cache_hit_idempotent_witness :
    save_conference_list_html (fun _ => none)
        ⟨[("conference_links/2023-10.html", "cached list page")]⟩
        "https://www.churchofjesuschrist.org/study/general-conference/2023/10?lang=eng"
        "conference_links" =
      { path := some (joinPath "conference_links" (conf_list_filename
          "https://www.churchofjesuschrist.org/study/general-conference/2023/10?lang=eng")),
        downloaded := false,
        fs := ⟨[("conference_links/2023-10.html", "cached list page")]⟩, requests := 0 } ∧
    save_talk_html (fun _ => none)
        ⟨[("conference_talks/2023-10-15nelson_lang=eng.html", "cached talk page")]⟩
        "https://www.churchofjesuschrist.org/study/general-conference/2023/10/15nelson?lang=eng"
        "conference_talks" =
      { path := some (if FS.pathExists
            ⟨[("conference_talks/2023-10-15nelson_lang=eng.html", "cached talk page")]⟩
            (talk_filepath_lang
              "https://www.churchofjesuschrist.org/study/general-conference/2023/10/15nelson?lang=eng"
              "conference_talks")
          then talk_filepath_lang
            "https://www.churchofjesuschrist.org/study/general-conference/2023/10/15nelson?lang=eng"
            "conference_talks"
          else talk_filepath_plain
            "https://www.churchofjesuschrist.org/study/general-conference/2023/10/15nelson?lang=eng"
            "conference_talks"),
        downloaded := false,
        fs := ⟨[("conference_talks/2023-10-15nelson_lang=eng.html", "cached talk page")]⟩,
        requests := 0 } :=
  ⟨fetch_cache_hit_idempotent.1 (fun _ => none)
      ⟨[("conference_links/2023-10.html", "cached list page")]⟩
      "https://www.churchofjesuschrist.org/study/general-conference/2023/10?lang=eng"
      "conference_links" (by decide) (by decide),
   fetch_cache_hit_idempotent.2 (fun _ => none)
      ⟨[("conference_talks/2023-10-15nelson_lang=eng.html", "cached talk page")]⟩
      "https://www.churchofjesuschrist.org/study/general-conference/2023/10/15nelson?lang=eng"
      "conference_talks" (by decide) (Or.inr (by decide))⟩

/-- C8: for every URL whose fetch fails (network error or non-2xx status,
both surfacing as a `None` response of the oracle) while no cache file
exists, the fetch functions yield the empty result, no path and
not-downloaded, with the filesystem unchanged, instead of propagating the
exception. -/
theorem fetch_failure_yields_empty :
    (∀ (net : String → Option String) (fs : FS) (url folder_path : String),
      net url = none →
      fs.pathExists (joinPath folder_path (conf_list_filename url)) = false →
      (save_conference_list_html net fs url folder_path).path = none ∧
      (save_conference_list_html net fs url folder_path).downloaded = false ∧
      (save_conference_list_html net fs url folder_path).fs = fs) ∧
    (∀ (net : String → Option String) (fs : FS) (url folder_path : String),
      net url = none →
      fs.pathExists (talk_filepath_plain url folder_path) = false →
      fs.pathExists (talk_filepath_lang url folder_path) = false →
      (save_talk_html net fs url folder_path).path = none ∧
      (save_talk_html net fs url folder_path).downloaded = false ∧
      (save_talk_html net fs url folder_path).fs = fs) := by
  constructor
  · intro net fs url folder_path hnet hmiss
    by_cases hlen : (pySplit url '/').length < 2
    · simp [save_conference_list_html, hlen]
    · simp [save_conference_list_html, hlen, hmiss, hnet]
  · intro net fs url folder_path hnet hmiss1 hmiss2
    by_cases hlen : (pySplit url '/').length < 3
    · simp [save_talk_html, hlen]
    · simp [save_talk_html, hlen, hmiss1, hmiss2, hnet]

/-- C8 witness: both clauses applied to an always-failing network oracle
and an empty cache. -/
theorem fetch_failure_yields_empty_witness :
    ((save_conference_list_html (fun _ => none) ⟨[]⟩
        "https://www.churchofjesuschrist.org/study/general-conference/2023/10?lang=eng"
        "conference_links").path = none ∧
      (save_conference_list_html (fun _ => none) ⟨[]⟩
        "https://www.churchofjesuschrist.org/study/general-conference/2023/10?lang=eng"
        "conference_links").downloaded = false ∧
      (save_conference_list_html (fun _ => none) ⟨[]⟩
        "https://www.churchofjesuschrist.org/study/general-conference/2023/10?lang=eng"
        "conference_links").fs = ⟨[]⟩) ∧
    ((save_talk_html (fun _ => none) ⟨[]⟩
        "https://www.churchofjesuschrist.org/study/general-conference/2023/10/15nelson?lang=eng"
        "conference_talks").path = none ∧
      (save_talk_html (fun _ => none) ⟨[]⟩
        "https://www.churchofjesuschrist.org/study/general-conference/2023/10/15nelson?lang=eng"
        "conference_talks").downloaded = false ∧
      (save_talk_html (fun _ => none) ⟨[]⟩
        "https://www.churchofjesuschrist.org/study/general-conference/2023/10/15nelson?lang=eng"
        "conference_talks").fs = ⟨[]⟩) :=
  ⟨fetch_failure_yields_empty.1 (fun _ => none) ⟨[]⟩
      "https://www.churchofjesuschrist.org/study/general-conference/2023/10?lang=eng"
      "conference_links" rfl (by decide),
   fetch_failure_yields_empty.2 (fun _ => none) ⟨[]⟩
      "https://www.churchofjesuschrist.org/study/general-conference/2023/10/15nelson?lang=eng"
      "conference_talks" rfl (by decide) (by decide)⟩

/-- C10: `clean_text` is idempotent on every non-null string, its output
contains only ASCII characters, the output has no leading or trailing
whitespace, and it contains no run of two or more consecutive whitespace
characters. -/
theorem clean_text_idempotent_canonical :
    ∀ s : String,
      clean_text (clean_text s) = clean_text s ∧
      (∀ c ∈ (clean_text s).data, c.toNat ≤ 127) ∧
      (∀ c, (clean_text s).data.head? = some c → isPySpace c = false) ∧
      (∀ c, (clean_text s).data.getLast? = some c → isPySpace c = false) ∧
      (clean_text s).data.Chain'
        (fun a b => ¬(isPySpace a = true ∧ isPySpace b = true)) := by
  intro s
  have hdata : (clean_text s).data =
      pyStrip (collapseWS ((s.data.filter fun c => !(specialChars.contains c)).filter
        fun c => decide (c.toNat ≤ 0x7F))) := rfl
  obtain ⟨hws, hchain, hsrc, hhead, hlast⟩ :=
    clean_output_props ((s.data.filter fun c => !(specialChars.contains c)).filter
      fun c => decide (c.toNat ≤ 0x7F))
  have hascii : ∀ c ∈ (clean_text s).data, c.toNat ≤ 127 := by
    intro c hc
    rw [hdata] at hc
    rcases hsrc c hc with rfl | h2
    · decide
    · exact of_decide_eq_true (List.mem_filter.mp h2).2
  have hnospecial : ∀ c ∈ (clean_text s).data, (!(specialChars.contains c)) = true := by
    intro c hc
    rw [hdata] at hc
    rcases hsrc c hc with rfl | h2
    · decide
    · exact (List.mem_filter.mp (List.mem_filter.mp h2).1).2
  have hasciiB : ∀ c ∈ (clean_text s).data, (decide (c.toNat ≤ 0x7F)) = true :=
    fun c hc => decide_eq_true (hascii c hc)
  refine ⟨?_, hascii, ?_, ?_, ?_⟩
  · have hstep : clean_text (clean_text s) =
        String.mk (pyStrip (collapseWS (((clean_text s).data.filter fun c =>
          !(specialChars.contains c)).filter fun c => decide (c.toNat ≤ 0x7F)))) := rfl
    rw [hstep, List.filter_eq_self.mpr hnospecial, List.filter_eq_self.mpr hasciiB,
      strip_collapse_fixed (clean_text s).data
        (by rw [hdata]; exact hws)
        (by rw [hdata]; exact hchain)
        (by rw [hdata]; exact hhead)
        (by rw [hdata]; exact hlast)]
  · rw [hdata]; exact hhead
  · rw [hdata]; exact hlast
  · rw [hdata]; exact hchain

/-- C10 witness: idempotence and the ASCII bound applied to a concrete
string with redundant whitespace. -/
theorem clean_text_idempotent_canonical_witness :
    clean_text (clean_text " a  b ") = clean_text " a  b " ∧ Char.toNat 'a' ≤ 127 :=
  ⟨(clean_text_idempotent_canonical " a  b ").1,
   (clean_text_idempotent_canonical " a  b ").2.1 'a' (by decide)⟩

/-- C9 witness: the invariant applied to the empty cache and a `None`
filepath, with a concrete member of the returned mapping. -/
theorem count_refs_keys_invariant_witness :
    (count_scripture_references_from_file ⟨[]⟩ none).map Prod.fst =
        ["bom", "dc", "pgp", "nt", "ot"] ∧
      (0 : Nat) ≤ ("bom", (0 : Nat)).2 :=
  ⟨(count_refs_keys_invariant ⟨[]⟩ none).1,
   (count_refs_keys_invariant ⟨[]⟩ none).2 ("bom", 0) (by decide)⟩

end GCC
